import Mathlib

/-!
Verification of the per-tenant PDF ingestion and retrieval pipeline of
`backend/process_qa.py` (chat-pdf).

The development shallowly embeds the code:

* `LRUCache` models the `LRUCache(OrderedDict)` class (capacity-bounded
  recency cache).  Its entry list is ordered least-recently-used first,
  most-recently-used last, exactly as an `OrderedDict` iterates.
* `loadPdfWithFallbacks` models `PDFProcessor._load_pdf_with_fallbacks`,
  the four-strategy extraction chain.  A `PdfFile` records what each
  extraction library call would do on that file (raise, or return pages),
  so exception control flow becomes explicit data.
* `processCompanyPdfs` models `PDFProcessor._process_company_pdfs`
  (extract, tag with `company_number`, filter empties, chunk, embed,
  save, cache), with the external libraries (text splitter, FAISS,
  embeddings) represented by environment parameters.
* `answerQuestion` models `PDFProcessor.answer_question` (cache hit,
  disk load, rebuild, then retrieval and generation).
-/

/-! ## LRU cache (`LRUCache` in process_qa.py, lines 43-62) -/

/-- Entry list of the `OrderedDict`: least recently used first.
`capacity` is the `capacity` attribute. -/
structure LRUCache (K V : Type) where
  capacity : Nat
  entries : List (K × V)
  deriving DecidableEq, Repr

variable {K V : Type} [DecidableEq K]

/-- Remove every entry with the given key (the effect of deleting `key`
from the dict; with unique keys it removes the single entry). -/
def eraseKey (l : List (K × V)) (k : K) : List (K × V) :=
  l.filter (fun p => p.1 ≠ k)

/-- Dictionary lookup `self[key]` / `key in self`: first entry with the key. -/
def lookupEntry (l : List (K × V)) (k : K) : Option V :=
  (l.find? (fun p => p.1 = k)).map Prod.snd

/-- A fresh cache, as built by `LRUCache.__init__(capacity)`. -/
def LRUCache.empty (cap : Nat) : LRUCache K V :=
  ⟨cap, []⟩

/-- `LRUCache.get` (lines 50-54): `if key not in self: return None;
self.move_to_end(key); return self[key]`.  Returns the value (or `none`)
together with the cache state after the call. -/
def LRUCache.get (c : LRUCache K V) (k : K) : Option V × LRUCache K V :=
  match lookupEntry c.entries k with
  | none => (none, c)
  | some v => (some v, ⟨c.capacity, eraseKey c.entries k ++ [(k, v)]⟩)

/-- The cache state observable between `self[key] = value` (line 59) and
the capacity check (line 60) of `LRUCache.put`: the key has been moved to
the most-recently-used end and (re)bound, but no eviction has happened yet. -/
def LRUCache.putInserted (c : LRUCache K V) (k : K) (v : V) : LRUCache K V :=
  ⟨c.capacity, eraseKey c.entries k ++ [(k, v)]⟩

/-- `LRUCache.put` (lines 56-62): move-to-end / insert, then
`if len(self) > self.capacity: self.popitem(last=False)` (drop the
least-recently-used entry, the head). -/
def LRUCache.put (c : LRUCache K V) (k : K) (v : V) : LRUCache K V :=
  if (c.putInserted k v).entries.length > c.capacity then
    ⟨c.capacity, (c.putInserted k v).entries.tail⟩
  else c.putInserted k v

/-- One client operation on the cache. -/
inductive CacheOp (K V : Type) where
  | get (k : K)
  | put (k : K) (v : V)
  deriving DecidableEq, Repr

/-- State after running one operation (`get` discards the returned value). -/
def applyOp (c : LRUCache K V) : CacheOp K V → LRUCache K V
  | .get k => (c.get k).2
  | .put k v => c.put k v

/-- State after a sequence of operations. -/
def applyOps (c : LRUCache K V) (ops : List (CacheOp K V)) : LRUCache K V :=
  ops.foldl applyOp c

/-- Keys currently in the cache, LRU first. -/
def cacheKeys (c : LRUCache K V) : List K :=
  c.entries.map Prod.fst

theorem length_eraseKey_le (l : List (K × V)) (k : K) :
    (eraseKey l k).length ≤ l.length :=
  List.length_filter_le _ l

theorem mem_eraseKey {l : List (K × V)} {k : K} {p : K × V} :
    p ∈ eraseKey l k → p ∈ l ∧ p.1 ≠ k := by
  intro h
  have h' := List.mem_filter.mp h
  exact ⟨h'.1, by simpa using h'.2⟩

theorem eraseKey_of_not_mem {l : List (K × V)} {k : K}
    (h : ∀ p ∈ l, p.1 ≠ k) : eraseKey l k = l := by
  unfold eraseKey
  exact List.filter_eq_self.mpr (fun p hp => by simpa using h p hp)

theorem lookupEntry_nil (k : K) : lookupEntry ([] : List (K × V)) k = none := rfl

theorem lookupEntry_mem {l : List (K × V)} {k : K} {v : V}
    (h : lookupEntry l k = some v) : (k, v) ∈ l := by
  unfold lookupEntry at h
  cases hf : l.find? (fun p => p.1 = k) with
  | none => simp [hf] at h
  | some p =>
    have hp : p ∈ l := List.mem_of_find?_eq_some hf
    have hk : p.1 = k := by
      have := List.find?_some hf
      simpa using this
    simp [hf] at h
    cases p with
    | mk a b =>
      cases hk
      cases h
      exact hp

theorem length_eraseKey_lt {l : List (K × V)} {k : K} {v : V}
    (h : (k, v) ∈ l) : (eraseKey l k).length < l.length := by
  apply List.length_filter_lt_length_iff_exists.mpr
  exact ⟨(k, v), h, by simp⟩

theorem length_get_le (c : LRUCache K V) (k : K) :
    ((c.get k).2).entries.length ≤ c.entries.length := by
  unfold LRUCache.get
  cases hl : lookupEntry c.entries k with
  | none => simp
  | some v =>
    have hm := lookupEntry_mem hl
    have := length_eraseKey_lt (l := c.entries) hm
    simp only [List.length_append, List.length_cons, List.length_nil]
    omega

theorem length_put_le (c : LRUCache K V) (k : K) (v : V)
    (h : c.entries.length ≤ c.capacity) :
    (c.put k v).entries.length ≤ c.capacity := by
  have he := length_eraseKey_le c.entries k
  unfold LRUCache.put LRUCache.putInserted
  simp only [List.length_append, List.length_cons, List.length_nil]
  split
  · simp only [List.length_tail, List.length_append, List.length_cons,
      List.length_nil]
    omega
  · simp only [List.length_append, List.length_cons, List.length_nil]
    omega

theorem length_applyOp_le (c : LRUCache K V) (op : CacheOp K V)
    (h : c.entries.length ≤ c.capacity) :
    (applyOp c op).entries.length ≤ c.capacity := by
  cases op with
  | get k => exact le_trans (length_get_le c k) h
  | put k v => exact length_put_le c k v h

theorem capacity_applyOp (c : LRUCache K V) (op : CacheOp K V) :
    (applyOp c op).capacity = c.capacity := by
  cases op with
  | get k =>
    show ((c.get k).2).capacity = c.capacity
    unfold LRUCache.get
    cases hl : lookupEntry c.entries k <;> simp [hl]
  | put k v =>
    show (c.put k v).capacity = c.capacity
    unfold LRUCache.put
    split <;> rfl

/-- The capacity bound holds after every sequence of operations. -/
theorem length_applyOps_le (ops : List (CacheOp K V)) (c : LRUCache K V)
    (h : c.entries.length ≤ c.capacity) :
    (applyOps c ops).entries.length ≤ (applyOps c ops).capacity := by
  induction ops generalizing c with
  | nil => exact h
  | cons op t ih =>
    have := length_applyOp_le c op h
    have hcap := capacity_applyOp c op
    exact ih (applyOp c op) (by rw [hcap]; exact this)

/-! ## Documents and PDF extraction
(`PDFProcessor._load_pdf_with_fallbacks`, process_qa.py lines 118-242) -/

/-- Metadata carried by a langchain `Document`: the loading strategies set
`source` and `page`; `_process_company_pdfs` later sets `company_number`. -/
structure DocMeta where
  source : String
  page : Nat
  company_number : Option String
  deriving DecidableEq, Repr

/-- A langchain `Document`: one extracted page (and later, one chunk). -/
structure Document where
  page_content : String
  metadata : DocMeta
  deriving DecidableEq, Repr

deriving instance DecidableEq for Except

/-- A PDF file on disk, described by what each extraction library call does
on it: `Except.error` models the call raising an exception.  Methods 3 and 4
iterate pages individually, so they are lists of per-page outcomes. -/
structure PdfFile where
  name : String
  pypdfLoader : Except Unit (List Document)
  plumberLoader : Except Unit (List Document)
  pypdfPages : Except Unit (List (Except Unit String))
  ocrPages : Except Unit (List (Except Unit String))
  deriving DecidableEq, Repr

/-- Python's `str.strip()`: drop leading and trailing whitespace
(executable model; `String.trim` does not reduce in the kernel). -/
def pyStrip (s : String) : String :=
  ⟨((s.data.dropWhile Char.isWhitespace).reverse.dropWhile
      Char.isWhitespace).reverse⟩

/-- The `has_text` check of methods 1 and 2:
`if doc.page_content and doc.page_content.strip()` for some page. -/
def hasText (docs : List Document) : Bool :=
  docs.any (fun d => pyStrip d.page_content != "")

/-- Shared shape of methods 1 and 2 (PyPDFLoader / PDFPlumberLoader):
an exception, or a load whose pages carry no text, is a failure (`none`);
a load with at least one non-whitespace page returns all loaded pages. -/
def tryLoader (r : Except Unit (List Document)) : Option (List Document) :=
  match r with
  | .error _ => none
  | .ok docs => if hasText docs then some docs else none

/-- Per-page collection of methods 3 and 4: pages whose extraction raised
are skipped; pages whose text is whitespace-only are skipped; kept pages
record the source file name and the original page index (`enumerate`). -/
def pagesToDocs (fname : String) (pages : List (Except Unit String)) :
    List Document :=
  pages.enum.filterMap (fun ip =>
    match ip.2 with
    | .error _ => none
    | .ok t => if pyStrip t != "" then some ⟨t, ⟨fname, ip.1, none⟩⟩ else none)

/-- Shared shape of methods 3 and 4 (direct pypdf / OCR): an exception
before the page loop, or zero collected pages, is a failure. -/
def tryPages (fname : String) (r : Except Unit (List (Except Unit String))) :
    Option (List Document) :=
  match r with
  | .error _ => none
  | .ok pages =>
    let docs := pagesToDocs fname pages
    if docs.isEmpty then none else some docs

/-- `_load_pdf_with_fallbacks` (lines 118-242): try the four methods in
order, return the first success, and `[]` when every method fails. -/
def loadPdfWithFallbacks (f : PdfFile) : List Document :=
  match tryLoader f.pypdfLoader with
  | some docs => docs
  | none =>
    match tryLoader f.plumberLoader with
    | some docs => docs
    | none =>
      match tryPages f.name f.pypdfPages with
      | some docs => docs
      | none =>
        match tryPages f.name f.ocrPages with
        | some docs => docs
        | none => []

/-- Instrumented variant of `loadPdfWithFallbacks` that also reports which
strategies (numbered 1-4 as in the source comments) were attempted. -/
def loadPdfWithFallbacksTraced (f : PdfFile) : List Document × List Nat :=
  match tryLoader f.pypdfLoader with
  | some docs => (docs, [1])
  | none =>
    match tryLoader f.plumberLoader with
    | some docs => (docs, [1, 2])
    | none =>
      match tryPages f.name f.pypdfPages with
      | some docs => (docs, [1, 2, 3])
      | none =>
        match tryPages f.name f.ocrPages with
        | some docs => (docs, [1, 2, 3, 4])
        | none => ([], [1, 2, 3, 4])

/-- Outcome of strategy `i` of `_load_pdf_with_fallbacks` in isolation
(`none` = that strategy fails: it raises or finds no non-whitespace text). -/
def stratOutcome (f : PdfFile) : Nat → Option (List Document)
  | 1 => tryLoader f.pypdfLoader
  | 2 => tryLoader f.plumberLoader
  | 3 => tryPages f.name f.pypdfPages
  | 4 => tryPages f.name f.ocrPages
  | _ => none

/-- Whether an `Except` outcome models a raised exception. -/
def isRaised {ε α : Type} : Except ε α → Bool
  | .error _ => true
  | .ok _ => false

/-- Whether the library call behind strategy `i` raises an exception. -/
def stratRaises (f : PdfFile) : Nat → Bool
  | 1 => isRaised f.pypdfLoader
  | 2 => isRaised f.plumberLoader
  | 3 => isRaised f.pypdfPages
  | 4 => isRaised f.ocrPages
  | _ => false

/-! ## Tenants, vector stores, file system, pipeline state -/

abbrev Tenant := String

/-- A FAISS vector store, abstracted to the chunks it indexes
(retrieval draws from exactly these documents). -/
structure VectorStore where
  chunks : List Document
  deriving DecidableEq, Repr

/-- What a reader finds at `vector_store/<company>`: either a directory
whose index files are incomplete or inconsistent (so `FAISS.load_local`
raises), or a completely written store.  Absence of the path is modelled
by the lookup returning `none`. -/
inductive DiskSlot where
  | partialWrite
  | complete (vs : VectorStore)
  deriving DecidableEq, Repr

/-- Durable storage: `downloaded_pdfs/<company>/*.pdf` and
`vector_store/<company>`. -/
structure FileSystem where
  downloads : List (Tenant × List PdfFile)
  vectorDir : List (Tenant × DiskSlot)
  deriving DecidableEq, Repr

/-- `glob.glob(os.path.join(company_path, "*.pdf"))`: the tenant's PDFs
(empty when the directory is missing). -/
def lookupDownloads (fs : FileSystem) (c : Tenant) : List PdfFile :=
  match lookupEntry fs.downloads c with
  | some l => l
  | none => []

/-- What is currently at the tenant's vector-store path. -/
def diskSlot (fs : FileSystem) (c : Tenant) : Option DiskSlot :=
  lookupEntry fs.vectorDir c

/-- Overwrite the tenant's vector-store path. -/
def setDiskSlot (fs : FileSystem) (c : Tenant) (s : DiskSlot) : FileSystem :=
  ⟨fs.downloads, (c, s) :: eraseKey fs.vectorDir c⟩

/-- Mutable state of a `PDFProcessor`: the file system it works on, the
`company_vector_stores` LRU cache, and the `vector_store` attribute. -/
structure ProcState where
  fs : FileSystem
  cache : LRUCache Tenant VectorStore
  active : Option VectorStore
  deriving DecidableEq, Repr

/-- Behaviour of the external libraries used by the pipeline:
`splitText` is `RecursiveCharacterTextSplitter(1000, 100).split_text`;
`embedFail` is whether `FAISS.from_documents` / `save_local` raise;
`rankChunks` is the FAISS similarity ordering of a store's chunks for a
query; `llm` maps the final prompt to the generation outcome, where
`Except.error` models the provider raising. -/
structure QAEnv where
  splitText : String → List String
  embedFail : Bool
  rankChunks : String → List Document → List Document
  llm : String → Except Unit String

/-- `doc.metadata["company_number"] = company_number` (line 266). -/
def tagCompany (c : Tenant) (d : Document) : Document :=
  ⟨d.page_content, ⟨d.metadata.source, d.metadata.page, some c⟩⟩

/-- `RecursiveCharacterTextSplitter.split_documents`: each document's text
is split into pieces and every piece inherits the document's metadata. -/
def splitDocuments (splitText : String → List String) (docs : List Document) :
    List Document :=
  docs.flatMap (fun d => (splitText d.page_content).map (fun t => ⟨t, d.metadata⟩))

/-! ## Index builder (`PDFProcessor._process_company_pdfs`, lines 244-328) -/

/-- The distinct diagnostic messages printed by `_process_company_pdfs`
on its distinct exit branches. -/
inductive LogMsg where
  | companyRequired
  | noPdfsFound
  | noDocumentsLoaded
  | noExtractableText
  | noChunksCreated
  | embeddingError
  | storeCreated
  deriving DecidableEq, Repr

/-- Lines 259-268: load every PDF of the company through the fallback
chain and tag each page with the company number. -/
def companyDocuments (c : Tenant) (pdfs : List PdfFile) : List Document :=
  pdfs.flatMap (fun f => (loadPdfWithFallbacks f).map (tagCompany c))

/-- Lines 279-284: keep only documents with non-whitespace content. -/
def nonEmptyDocs (docs : List Document) : List Document :=
  docs.filter (fun d => pyStrip d.page_content != "")

/-- The chunks `_process_company_pdfs` builds for the company
(lines 293-299): split the non-empty tagged documents. -/
def builtChunks (env : QAEnv) (st : ProcState) (c : Tenant) : List Document :=
  splitDocuments env.splitText
    (nonEmptyDocs (companyDocuments c (lookupDownloads st.fs c)))

/-- `_process_company_pdfs(company_number)` (lines 244-328): load every
PDF through the fallback chain, tag pages with the company number, drop
whitespace-only pages, chunk, build and save the FAISS store, and `put`
it into the cache.  Returns the new processor state, the boolean the
method returns, and the diagnostic message of the exit branch taken. -/
def processCompanyPdfs (env : QAEnv) (st : ProcState) (c : Tenant) :
    ProcState × Bool × List LogMsg :=
  if c = "" then (st, false, [LogMsg.companyRequired])
  else if lookupDownloads st.fs c = [] then (st, false, [LogMsg.noPdfsFound])
  else if companyDocuments c (lookupDownloads st.fs c) = [] then
    (st, false, [LogMsg.noDocumentsLoaded])
  else if nonEmptyDocs (companyDocuments c (lookupDownloads st.fs c)) = [] then
    (st, false, [LogMsg.noExtractableText])
  else if builtChunks env st c = [] then (st, false, [LogMsg.noChunksCreated])
  else if env.embedFail then (st, false, [LogMsg.embeddingError])
  else
    (⟨setDiskSlot st.fs c (DiskSlot.complete ⟨builtChunks env st c⟩),
      st.cache.put c ⟨builtChunks env st c⟩, st.active⟩,
     true, [LogMsg.storeCreated])

/-- Observable states of the tenant's `vector_store/<company>` path while
lines 315-317 run: `os.makedirs(path, exist_ok=True)` followed by
`save_local`, which writes `index.faiss` and then `index.pkl` directly
into the published path.  `prev` is what the path held before the persist
step; each element is what a reader looking at the path at that moment
finds. -/
def publishTrace (prev : Option DiskSlot) (vs : VectorStore) :
    List (Option DiskSlot) :=
  [prev,
   some (match prev with
         | none => DiskSlot.partialWrite
         | some s => s),
   some DiskSlot.partialWrite,
   some (DiskSlot.complete vs)]

/-! ## Answerer (`PDFProcessor.answer_question`, lines 414-464, and
`setup_qa_chain`, lines 383-412) -/

/-- "Please specify a company number to ask questions about." (line 420) -/
def msgNeedCompany : String :=
  "Please specify a company number to ask questions about."

/-- "Failed to process PDFs for company {company_number}." (line 446) -/
def msgFailedProcess (c : String) : String :=
  "Failed to process PDFs for company " ++ c ++ "."

/-- "No PDFs found or processing failed for company {company_number}.
Please upload PDFs first." (line 454) -/
def msgNoPdfsOrFailed (c : String) : String :=
  "No PDFs found or processing failed for company " ++ c ++
    ". Please upload PDFs first."

/-- "No data available for company {company_number}." (line 458) -/
def msgNoData (c : String) : String :=
  "No data available for company " ++ c ++ "."

/-- The three user-facing failure answers `answer_question` can return
once a company number was supplied. -/
def failureMessages (c : String) : List String :=
  [msgFailedProcess c, msgNoPdfsOrFailed c, msgNoData c]

/-- The prompt assembled by `setup_qa_chain` (lines 393-403). -/
def promptTemplate (context question : String) : String :=
  "You are an AI assistant that helps answer questions based on PDF documents. " ++
  "Use the following context to answer the question. " ++
  "If you do not know the answer from the provided context, say you do not know. " ++
  "Context: " ++ context ++ " Question: " ++ question

/-- How the retriever output is rendered into the prompt's context slot. -/
def contextOf (docs : List Document) : String :=
  String.intercalate "\n\n" (docs.map (fun d => d.page_content))

/-- Which resolution step produced the vector store used for answering. -/
inductive ResolSrc where
  | cacheHit
  | diskLoad
  | rebuilt
  deriving DecidableEq, Repr

/-- Result of one `answer_question` call: the final processor state, the
outcome (`Except.error` models an exception escaping to the caller), the
chunks the retriever placed into the prompt, and which resolution step
supplied the store (instrumentation; `none` when no store was used). -/
structure QAResult where
  state : ProcState
  outcome : Except Unit String
  retrieved : List Document
  resolvedFrom : Option ResolSrc

/-- Lines 456-464: the common tail of `answer_question`.  `if not
self.vector_store: return "No data available..."`; otherwise
`setup_qa_chain` builds the retriever over the active store (top 4 chunks
by similarity) and `qa_chain.invoke(question)` calls the generation
provider — an exception there propagates to the caller. -/
def finishAnswer (env : QAEnv) (st : ProcState) (question c : String)
    (src : ResolSrc) : QAResult :=
  match st.active with
  | none => ⟨st, .ok (msgNoData c), [], none⟩
  | some vs =>
    match env.llm (promptTemplate
        (contextOf ((env.rankChunks question vs.chunks).take 4)) question) with
    | .error e =>
      ⟨st, .error e, (env.rankChunks question vs.chunks).take 4, some src⟩
    | .ok ans =>
      ⟨st, .ok ans, (env.rankChunks question vs.chunks).take 4, some src⟩

/-- `answer_question(question, company_number)` (lines 414-464):
cache hit, else disk load (a partially written index makes
`FAISS.load_local` raise, which triggers a rebuild), else rebuild from the
tenant's PDFs; then the common answering tail. -/
def answerQuestion (env : QAEnv) (st : ProcState) (question c : String) :
    QAResult :=
  if c = "" then ⟨st, .ok msgNeedCompany, [], none⟩
  else
    match lookupEntry st.cache.entries c with
    | some vs =>
      finishAnswer env ⟨st.fs, (st.cache.get c).2, some vs⟩ question c
        ResolSrc.cacheHit
    | none =>
      match diskSlot st.fs c with
      | some (DiskSlot.complete vs) =>
        finishAnswer env ⟨st.fs, st.cache.put c vs, some vs⟩ question c
          ResolSrc.diskLoad
      | some DiskSlot.partialWrite =>
        match lookupEntry (processCompanyPdfs env st c).1.cache.entries c with
        | none =>
          ⟨⟨(processCompanyPdfs env st c).1.fs,
            ((processCompanyPdfs env st c).1.cache.get c).2, none⟩,
           .ok (msgFailedProcess c), [], none⟩
        | some vs =>
          finishAnswer env ⟨(processCompanyPdfs env st c).1.fs,
            ((processCompanyPdfs env st c).1.cache.get c).2, some vs⟩
            question c ResolSrc.rebuilt
      | none =>
        if (processCompanyPdfs env st c).2.1 then
          match lookupEntry (processCompanyPdfs env st c).1.cache.entries c with
          | some vs =>
            finishAnswer env ⟨(processCompanyPdfs env st c).1.fs,
              ((processCompanyPdfs env st c).1.cache.get c).2, some vs⟩
              question c ResolSrc.rebuilt
          | none =>
            finishAnswer env ⟨(processCompanyPdfs env st c).1.fs,
              ((processCompanyPdfs env st c).1.cache.get c).2, none⟩
              question c ResolSrc.rebuilt
        else ⟨(processCompanyPdfs env st c).1,
              .ok (msgNoPdfsOrFailed c), [], none⟩

/-! ## Tenant ownership invariant -/

/-- Every chunk of the store is tagged with the given tenant. -/
def storeOwnedBy (t : Tenant) (vs : VectorStore) : Prop :=
  ∀ d ∈ vs.chunks, d.metadata.company_number = some t

/-- Well-formed processor state: every cached store and every completely
written on-disk store holds only chunks tagged with the tenant it is
stored under. -/
def WFState (st : ProcState) : Prop :=
  (∀ p ∈ st.cache.entries, storeOwnedBy p.1 p.2) ∧
  (∀ t vs, (t, DiskSlot.complete vs) ∈ st.fs.vectorDir → storeOwnedBy t vs)

/-! ## Further cache lemmas -/

theorem lookupEntry_eraseKey_self (l : List (K × V)) (k : K) :
    lookupEntry (eraseKey l k) k = none := by
  unfold lookupEntry
  cases hf : (eraseKey l k).find? (fun p => p.1 = k) with
  | none => rfl
  | some p =>
    have hp := List.mem_of_find?_eq_some hf
    have hk : p.1 = k := by simpa using List.find?_some hf
    exact absurd hk (mem_eraseKey hp).2

theorem lookupEntry_eraseKey_ne {l : List (K × V)} {k k' : K} (h : k' ≠ k) :
    lookupEntry (eraseKey l k) k' = lookupEntry l k' := by
  induction l with
  | nil => rfl
  | cons a t ih =>
    by_cases ha : a.1 = k
    · have h1 : eraseKey (a :: t) k = eraseKey t k := by
        simp [eraseKey, List.filter, ha]
      have h2 : lookupEntry (a :: t) k' = lookupEntry t k' := by
        unfold lookupEntry
        have : ¬ (a.1 = k') := by rw [ha]; exact fun hh => h hh.symm
        simp [List.find?, this]
      rw [h1, ih, h2]
    · have h1 : eraseKey (a :: t) k = a :: eraseKey t k := by
        simp [eraseKey, List.filter, ha]
      by_cases hk' : a.1 = k'
      · rw [h1]
        unfold lookupEntry
        simp [List.find?, hk']
      · rw [h1]
        unfold lookupEntry
        simp only [List.find?, hk']
        simp only [decide_eq_true_eq] at *
        simp [hk']
        exact ih

theorem lookupEntry_append (l₁ l₂ : List (K × V)) (k : K) :
    lookupEntry (l₁ ++ l₂) k =
      ((l₁.find? (fun p => p.1 = k)).or (l₂.find? (fun p => p.1 = k))).map
        Prod.snd := by
  unfold lookupEntry
  rw [List.find?_append]

theorem lookupEntry_putInserted_self (c : LRUCache K V) (k : K) (v : V) :
    lookupEntry ((c.putInserted k v)).entries k = some v := by
  show lookupEntry (eraseKey c.entries k ++ [(k, v)]) k = some v
  rw [lookupEntry_append]
  have h1 : (eraseKey c.entries k).find? (fun p => p.1 = k) = none := by
    have := lookupEntry_eraseKey_self c.entries k
    unfold lookupEntry at this
    cases hf : (eraseKey c.entries k).find? (fun p => p.1 = k) with
    | none => rfl
    | some p => rw [hf] at this; simp at this
  rw [h1]
  simp [List.find?]

theorem lookupEntry_putInserted_ne (c : LRUCache K V) (k k' : K) (v : V)
    (h : k' ≠ k) :
    lookupEntry ((c.putInserted k v)).entries k' = lookupEntry c.entries k' := by
  show lookupEntry (eraseKey c.entries k ++ [(k, v)]) k' = _
  rw [lookupEntry_append]
  have h2 : ([(k, v)] : List (K × V)).find? (fun p => p.1 = k') = none := by
    have hne : ¬ (k = k') := fun hh => h hh.symm
    simp [List.find?, hne]
  rw [h2, Option.or_none]
  exact lookupEntry_eraseKey_ne h

theorem length_eraseKey_of_nodup {l : List (K × V)} {k : K} {v : V}
    (hnd : (l.map Prod.fst).Nodup) (h : lookupEntry l k = some v) :
    (eraseKey l k).length + 1 = l.length := by
  induction l with
  | nil => simp [lookupEntry] at h
  | cons a t ih =>
    by_cases ha : a.1 = k
    · have herase : eraseKey (a :: t) k = eraseKey t k := by
        simp [eraseKey, List.filter, ha]
      have hnotk : ∀ p ∈ t, p.1 ≠ k := by
        intro p hp hpk
        have : a.1 ∉ t.map Prod.fst := (List.nodup_cons.mp hnd).1
        exact this (by rw [ha, ← hpk]; exact List.mem_map_of_mem Prod.fst hp)
      rw [herase, eraseKey_of_not_mem hnotk]
      simp
    · have herase : eraseKey (a :: t) k = a :: eraseKey t k := by
        simp [eraseKey, List.filter, ha]
      have hl : lookupEntry t k = some v := by
        unfold lookupEntry at h ⊢
        simp only [List.find?, ha] at h
        simpa [ha] using h
      have := ih (List.nodup_cons.mp hnd).2 hl
      rw [herase]
      simpa using this

theorem get_eq_none {c : LRUCache K V} {k : K}
    (h : lookupEntry c.entries k = none) : c.get k = (none, c) := by
  unfold LRUCache.get
  rw [h]

theorem get_eq_some {c : LRUCache K V} {k : K} {v : V}
    (h : lookupEntry c.entries k = some v) :
    c.get k = (some v, ⟨c.capacity, eraseKey c.entries k ++ [(k, v)]⟩) := by
  unfold LRUCache.get
  rw [h]

theorem mem_get_snd {c : LRUCache K V} {k : K} {p : K × V}
    (h : p ∈ ((c.get k).2).entries) : p ∈ c.entries := by
  cases hl : lookupEntry c.entries k with
  | none => rw [get_eq_none hl] at h; exact h
  | some v =>
    rw [get_eq_some hl] at h
    rcases List.mem_append.mp h with h1 | h1
    · exact (mem_eraseKey h1).1
    · have : p = (k, v) := by simpa using h1
      rw [this]
      exact lookupEntry_mem hl

theorem mem_put {c : LRUCache K V} {k : K} {v : V} {p : K × V}
    (h : p ∈ (c.put k v).entries) : p ∈ c.entries ∨ p = (k, v) := by
  unfold LRUCache.put at h
  have hmem : p ∈ (c.putInserted k v).entries := by
    by_cases hc :
        (c.putInserted k v).entries.length > c.capacity
    · rw [if_pos hc] at h
      exact List.mem_of_mem_tail h
    · rw [if_neg hc] at h
      exact h
  rcases List.mem_append.mp hmem with h1 | h1
  · exact Or.inl (mem_eraseKey h1).1
  · exact Or.inr (by simpa using h1)

theorem tail_append_singleton_of_ne_nil {α : Type} {l : List α} {a : α}
    (h : l ≠ []) : (l ++ [a]).tail = l.tail ++ [a] := by
  cases l with
  | nil => exact absurd rfl h
  | cons b t => rfl

theorem lookupEntry_fresh_append {l' : List (K × V)} {k : K} (v : V)
    (hsub : ∀ p ∈ l', p.1 ≠ k) :
    lookupEntry (l' ++ [(k, v)]) k = some v := by
  rw [lookupEntry_append]
  have h1 : l'.find? (fun p => p.1 = k) = none :=
    List.find?_eq_none.mpr (by intro p hp; simpa using hsub p hp)
  rw [h1]
  simp [List.find?, Option.or]

theorem capacity_applyOps (c : LRUCache K V) (ops : List (CacheOp K V)) :
    (applyOps c ops).capacity = c.capacity := by
  induction ops generalizing c with
  | nil => rfl
  | cons op t ih =>
    show (applyOps (applyOp c op) t).capacity = _
    rw [ih (applyOp c op), capacity_applyOp]

/-- Entries after `put`-ing a list of pairwise-distinct fresh keys into an
empty cache: the most recent `cap` of them, in insertion order. -/
theorem applyOps_puts_entries (cap : Nat) (hcap : 1 ≤ cap) (v : V)
    (ks : List K) (hnd : ks.Nodup) :
    (applyOps (LRUCache.empty cap)
        (ks.map (fun k => CacheOp.put k v))).entries
      = (ks.map (fun k => (k, v))).drop (ks.length - cap) := by
  induction ks using List.reverseRecOn with
  | nil => simp [applyOps, LRUCache.empty]
  | append_singleton ks' k ih =>
    have hnd' : ks'.Nodup := (List.nodup_append.mp hnd).1
    have hk : k ∉ ks' := by
      intro hin
      exact (List.nodup_append.mp hnd).2.2 hin (by simp)
    have he' := ih hnd'
    have happ : (ks' ++ [k]).map (fun k => CacheOp.put k v)
        = ks'.map (fun k => CacheOp.put k v) ++ [CacheOp.put k v] := by
      simp
    have hstep : applyOps (LRUCache.empty cap)
          ((ks' ++ [k]).map (fun k => CacheOp.put k v))
        = ((applyOps (LRUCache.empty cap)
            (ks'.map (fun k => CacheOp.put k v)))).put k v := by
      rw [happ]
      unfold applyOps
      rw [List.foldl_append]
      rfl
    set c' := applyOps (LRUCache.empty cap)
        (ks'.map (fun k => CacheOp.put k v)) with hc'
    have hcapc : c'.capacity = cap := capacity_applyOps _ _
    have hfresh : ∀ p ∈ c'.entries, p.1 ≠ k := by
      intro p hp
      rw [he'] at hp
      have hp2 : p ∈ ks'.map (fun k => (k, v)) := List.mem_of_mem_drop hp
      rcases List.mem_map.mp hp2 with ⟨x, hx, rfl⟩
      intro hxk
      exact hk (by rw [← hxk]; exact hx)
    have herase : eraseKey c'.entries k = c'.entries :=
      eraseKey_of_not_mem hfresh
    have hlen : c'.entries.length = ks'.length - (ks'.length - cap) := by
      rw [he']
      simp
    rw [hstep]
    unfold LRUCache.put LRUCache.putInserted
    simp only [herase, hcapc]
    by_cases hcase : ks'.length < cap
    · have hdrop0 : ks'.length - cap = 0 := by omega
      have hlen2 : c'.entries.length = ks'.length := by
        rw [hlen, hdrop0]; omega
      have hcond : ¬ ((c'.entries ++ [(k, v)]).length > cap) := by
        simp only [List.length_append, List.length_cons, List.length_nil,
          hlen2]
        omega
      rw [if_neg hcond, he', hdrop0]
      have : (ks' ++ [k]).length - cap = 0 := by
        simp only [List.length_append, List.length_cons, List.length_nil]
        omega
      rw [this]
      simp
    · have hge : cap ≤ ks'.length := by omega
      have hlen2 : c'.entries.length = cap := by rw [hlen]; omega
      have hcond : (c'.entries ++ [(k, v)]).length > cap := by
        simp only [List.length_append, List.length_cons, List.length_nil,
          hlen2]
        omega
      rw [if_pos hcond]
      have hne : c'.entries ≠ [] := by
        intro hnil
        rw [hnil] at hlen2
        simp at hlen2
        omega
      rw [tail_append_singleton_of_ne_nil hne, he', List.tail_drop]
      have hmap : (ks' ++ [k]).map (fun k => (k, v))
          = ks'.map (fun k => (k, v)) ++ [(k, v)] := by simp
      have hn1 : (ks' ++ [k]).length - cap
          = (ks'.length - cap) + 1 := by
        simp only [List.length_append, List.length_cons, List.length_nil]
        omega
      have hle : (ks'.length - cap) + 1 ≤ (ks'.map (fun k => (k, v))).length := by
        simp only [List.length_map]
        omega
      rw [hmap, hn1, List.drop_append_of_le_length hle]

/-! ## Claims about the cache -/

/-- C2 counterexample: the claim demands the cache never holds more than K
entries even transiently inside `put`.  In `LRUCache.put` the new key is
bound (line 59) before the capacity check (line 60), so a capacity-1 cache
that already holds "A" observably holds 2 entries while `put("B")` is
between its insertion and its eviction. -/
theorem C2_transient_overflow_counterexample :
    ((((LRUCache.empty 1 : LRUCache Tenant VectorStore).put "A" ⟨[]⟩)
        |>.putInserted "B" ⟨[]⟩).entries.length = 2) ∧
    ((((LRUCache.empty 1 : LRUCache Tenant VectorStore).put "A" ⟨[]⟩)
        |>.putInserted "B" ⟨[]⟩).capacity = 1) := by
  constructor <;> rfl

/-- C2 (amended): after every completed `get`/`put` operation of any
operation sequence started from a fresh cache, the entry count is at most
the capacity K; only the transient state inside a `put` (between the
insertion at line 59 and the eviction at line 62) can hold K+1 entries. -/
theorem C2_capacity_bound (cap : Nat)
    (ops : List (CacheOp Tenant VectorStore)) :
    (applyOps (LRUCache.empty cap) ops).entries.length ≤ cap := by
  have h := length_applyOps_le ops (LRUCache.empty cap)
    (by simp [LRUCache.empty])
  rw [capacity_applyOps] at h
  exact h

/-- C3: the standard LRU recency law.  (a) `get` on a present key marks it
most-recently-used; (b) `put` marks the key most-recently-used; (c) a
`put` of an absent key into a full cache evicts exactly the
least-recently-used entry (the head); (d) after putting K+1 pairwise
distinct keys into a fresh cache of capacity K, the first inserted key is
evicted and the remaining K keys are present. -/
theorem C3_lru_recency_law :
    (∀ (c : LRUCache Tenant VectorStore) (k : Tenant) (w : VectorStore),
        lookupEntry c.entries k = some w →
        ((c.get k).2).entries.getLast? = some (k, w)) ∧
    (∀ (c : LRUCache Tenant VectorStore) (k : Tenant) (w : VectorStore),
        1 ≤ c.capacity →
        (c.put k w).entries.getLast? = some (k, w)) ∧
    (∀ (c : LRUCache Tenant VectorStore) (k : Tenant) (w : VectorStore),
        1 ≤ c.capacity →
        lookupEntry c.entries k = none →
        c.entries.length = c.capacity →
        (c.put k w).entries = c.entries.tail ++ [(k, w)]) ∧
    (∀ (cap : Nat) (v : VectorStore) (k₀ : Tenant) (t : List Tenant),
        1 ≤ cap → (k₀ :: t).Nodup → (k₀ :: t).length = cap + 1 →
        k₀ ∉ cacheKeys (applyOps (LRUCache.empty cap)
            ((k₀ :: t).map (fun k => CacheOp.put k v))) ∧
        ∀ k ∈ t, k ∈ cacheKeys (applyOps (LRUCache.empty cap)
            ((k₀ :: t).map (fun k => CacheOp.put k v)))) := by
  refine ⟨?_, ?_, ?_, ?_⟩
  · intro c k w h
    rw [get_eq_some h]
    exact List.getLast?_concat _
  · intro c k w hcap
    unfold LRUCache.put
    split
    · next hcond =>
      have hlen : 2 ≤ ((c.putInserted k w)).entries.length := by omega
      have hne : eraseKey c.entries k ≠ [] := by
        intro hnil
        have : ((c.putInserted k w)).entries.length = 1 := by
          show (eraseKey c.entries k ++ [(k, w)]).length = 1
          rw [hnil]
          rfl
        omega
      show ((eraseKey c.entries k ++ [(k, w)]).tail).getLast? = some (k, w)
      rw [tail_append_singleton_of_ne_nil hne]
      exact List.getLast?_concat _
    · exact List.getLast?_concat _
  · intro c k w hcap habs hfull
    have hfresh : ∀ p ∈ c.entries, p.1 ≠ k := by
      intro p hp
      have := List.find?_eq_none.mp (by
        unfold lookupEntry at habs
        cases hf : c.entries.find? (fun p => p.1 = k) with
        | none => rfl
        | some q => rw [hf] at habs; simp at habs) p hp
      simpa using this
    have herase : eraseKey c.entries k = c.entries :=
      eraseKey_of_not_mem hfresh
    have hne : c.entries ≠ [] := by
      intro hnil
      rw [hnil] at hfull
      simp at hfull
      omega
    unfold LRUCache.put
    have hcond : ((c.putInserted k w)).entries.length > c.capacity := by
      show (eraseKey c.entries k ++ [(k, w)]).length > c.capacity
      rw [herase]
      simp [hfull]
    rw [if_pos hcond]
    show (eraseKey c.entries k ++ [(k, w)]).tail = c.entries.tail ++ [(k, w)]
    rw [herase, tail_append_singleton_of_ne_nil hne]
  · intro cap v k₀ t hcap hnd hlen
    have hent := applyOps_puts_entries cap hcap v (k₀ :: t) hnd
    have hdrop : (k₀ :: t).length - cap = 1 := by
      simp only [List.length_cons] at hlen ⊢
      omega
    rw [hdrop] at hent
    have hent2 : (applyOps (LRUCache.empty cap)
          ((k₀ :: t).map (fun k => CacheOp.put k v))).entries
        = t.map (fun k => (k, v)) := by
      rw [hent]
      rfl
    constructor
    · intro hin
      unfold cacheKeys at hin
      rw [hent2] at hin
      rcases List.mem_map.mp hin with ⟨p, hp, hpk⟩
      rcases List.mem_map.mp hp with ⟨x, hx, rfl⟩
      have : k₀ = x := hpk.symm
      rw [this] at hnd
      exact (List.nodup_cons.mp hnd).1 hx
    · intro k hk
      unfold cacheKeys
      rw [hent2]
      exact List.mem_map_of_mem Prod.fst (List.mem_map_of_mem _ hk)

/-- Witness for C3 at capacity 2 with keys "A", "B", "C": after the three
puts, "A" has been evicted and "B" is still present. -/
theorem C3_lru_recency_law_witness :
    "A" ∉ cacheKeys (applyOps (LRUCache.empty 2)
        ((["A", "B", "C"]).map (fun k => CacheOp.put k (⟨[]⟩ : VectorStore)))) ∧
    "B" ∈ cacheKeys (applyOps (LRUCache.empty 2)
        ((["A", "B", "C"]).map (fun k => CacheOp.put k (⟨[]⟩ : VectorStore)))) := by
  have h := C3_lru_recency_law.2.2.2 2 ⟨[]⟩ "A" ["B", "C"]
    (by decide) (by decide) (by decide)
  exact ⟨h.1, h.2 "B" (by decide)⟩

/-- C9: `get` on an absent key returns `none` and is a complete no-op:
entries, their order and the capacity are unchanged. -/
theorem C9_get_absent_noop (c : LRUCache Tenant VectorStore) (k : Tenant)
    (h : lookupEntry c.entries k = none) :
    (c.get k).1 = none ∧ (c.get k).2 = c := by
  rw [get_eq_none h]
  exact ⟨rfl, rfl⟩

/-- Witness for C9: a concrete cache holding "A" is untouched by
`get "B")`. -/
theorem C9_get_absent_noop_witness :
    ((⟨5, [("A", ⟨[]⟩)]⟩ : LRUCache Tenant VectorStore).get "B").1 = none ∧
    ((⟨5, [("A", ⟨[]⟩)]⟩ : LRUCache Tenant VectorStore).get "B").2
      = ⟨5, [("A", ⟨[]⟩)]⟩ :=
  C9_get_absent_noop ⟨5, [("A", ⟨[]⟩)]⟩ "B" (by decide)

/-- C10: `put` on a key already present in a within-capacity cache
replaces that key's value and marks it most-recently-used without
evicting: the entry count is unchanged, every other key's value is
preserved, and the key set is unchanged. -/
theorem C10_put_present_frame (c : LRUCache Tenant VectorStore)
    (k : Tenant) (v v₀ : VectorStore)
    (hsz : c.entries.length ≤ c.capacity)
    (hnd : (cacheKeys c).Nodup)
    (hmem : lookupEntry c.entries k = some v₀) :
    (c.put k v).entries = eraseKey c.entries k ++ [(k, v)] ∧
    (c.put k v).entries.length = c.entries.length ∧
    lookupEntry (c.put k v).entries k = some v ∧
    (∀ k', k' ≠ k →
      lookupEntry (c.put k v).entries k' = lookupEntry c.entries k') ∧
    (c.put k v).entries.getLast? = some (k, v) ∧
    (∀ k', k' ∈ cacheKeys (c.put k v) ↔ k' ∈ cacheKeys c) := by
  have hlen : (eraseKey c.entries k).length + 1 = c.entries.length :=
    length_eraseKey_of_nodup hnd hmem
  have hnoev : ¬ (((c.putInserted k v)).entries.length > c.capacity) := by
    show ¬ ((eraseKey c.entries k ++ [(k, v)]).length > c.capacity)
    simp only [List.length_append, List.length_cons, List.length_nil]
    omega
  have hentries : (c.put k v).entries = eraseKey c.entries k ++ [(k, v)] := by
    unfold LRUCache.put
    rw [if_neg hnoev]
    rfl
  refine ⟨hentries, ?_, ?_, ?_, ?_, ?_⟩
  · rw [hentries]
    simp only [List.length_append, List.length_cons, List.length_nil]
    omega
  · rw [hentries]
    exact lookupEntry_putInserted_self c k v
  · intro k' hk'
    rw [hentries]
    exact lookupEntry_putInserted_ne c k k' v hk'
  · rw [hentries]
    exact List.getLast?_concat _
  · intro k'
    unfold cacheKeys
    rw [hentries]
    constructor
    · intro hin
      rcases List.mem_map.mp hin with ⟨p, hp, rfl⟩
      rcases List.mem_append.mp hp with h1 | h1
      · exact List.mem_map_of_mem Prod.fst (mem_eraseKey h1).1
      · have hpkv : p = (k, v) := by simpa using h1
        subst hpkv
        show k ∈ c.entries.map Prod.fst
        exact List.mem_map_of_mem Prod.fst (lookupEntry_mem hmem)
    · intro hin
      rcases List.mem_map.mp hin with ⟨p, hp, rfl⟩
      by_cases hpk : p.1 = k
      · rw [hpk]
        have hkv : (k, v) ∈ eraseKey c.entries k ++ [(k, v)] :=
          List.mem_append_right _ (by simp)
        exact List.mem_map_of_mem Prod.fst hkv
      · refine List.mem_map_of_mem Prod.fst (List.mem_append_left _ ?_)
        unfold eraseKey
        exact List.mem_filter.mpr ⟨hp, decide_eq_true hpk⟩

/-- Witness for C10: replacing the value of "A" in a two-entry cache of
capacity 5 keeps the size at 2, keeps "B" intact and makes "A" the
most-recently-used entry with the new value. -/
theorem C10_put_present_frame_witness :
    ((⟨5, [("A", ⟨[]⟩), ("B", ⟨[]⟩)]⟩ : LRUCache Tenant VectorStore).put
        "A" ⟨[⟨"x", ⟨"s", 0, some "A"⟩⟩]⟩).entries.length = 2 ∧
    lookupEntry ((⟨5, [("A", ⟨[]⟩), ("B", ⟨[]⟩)]⟩ :
        LRUCache Tenant VectorStore).put
        "A" ⟨[⟨"x", ⟨"s", 0, some "A"⟩⟩]⟩).entries "A"
      = some ⟨[⟨"x", ⟨"s", 0, some "A"⟩⟩]⟩ ∧
    lookupEntry ((⟨5, [("A", ⟨[]⟩), ("B", ⟨[]⟩)]⟩ :
        LRUCache Tenant VectorStore).put
        "A" ⟨[⟨"x", ⟨"s", 0, some "A"⟩⟩]⟩).entries "B" = some ⟨[]⟩ := by
  have h := C10_put_present_frame ⟨5, [("A", ⟨[]⟩), ("B", ⟨[]⟩)]⟩
    "A" ⟨[⟨"x", ⟨"s", 0, some "A"⟩⟩]⟩ ⟨[]⟩
    (by decide) (by decide) (by decide)
  refine ⟨h.2.1.trans (by decide), h.2.2.1, ?_⟩
  rw [h.2.2.2.1 "B" (by decide)]
  decide

/-! ## Claims about the extractor -/

theorem tryLoader_none_of_raised {r : Except Unit (List Document)}
    (h : isRaised r = true) : tryLoader r = none := by
  cases r with
  | error e => rfl
  | ok docs => simp [isRaised] at h

theorem tryPages_none_of_raised {fname : String}
    {r : Except Unit (List (Except Unit String))}
    (h : isRaised r = true) : tryPages fname r = none := by
  cases r with
  | error e => rfl
  | ok pages => simp [isRaised] at h

theorem tryLoader_some_hasText {r : Except Unit (List Document)}
    {docs : List Document} (h : tryLoader r = some docs) :
    hasText docs = true := by
  cases r with
  | error e => exact absurd h (by simp [tryLoader])
  | ok ds =>
    have h2 : (if hasText ds = true then some ds else none) = some docs := h
    by_cases hh : hasText ds = true
    · rw [if_pos hh] at h2
      injection h2 with h2
      subst h2
      exact hh
    · rw [if_neg hh] at h2
      exact absurd h2 (by simp)

theorem pagesToDocs_trim {fname : String}
    {pages : List (Except Unit String)} {d : Document}
    (h : d ∈ pagesToDocs fname pages) : pyStrip d.page_content ≠ "" := by
  unfold pagesToDocs at h
  rcases List.mem_filterMap.mp h with ⟨ip, _, hd⟩
  rcases ip with ⟨n, pg⟩
  cases pg with
  | error e => simp at hd
  | ok t =>
    have hd2 : (if (pyStrip t != "") = true then
        some (⟨t, ⟨fname, n, none⟩⟩ : Document) else none) = some d := hd
    by_cases ht : (pyStrip t != "") = true
    · rw [if_pos ht] at hd2
      injection hd2 with hd2
      subst hd2
      simpa using ht
    · rw [if_neg ht] at hd2
      exact absurd hd2 (by simp)

theorem tryPages_some_hasText {fname : String}
    {r : Except Unit (List (Except Unit String))} {docs : List Document}
    (h : tryPages fname r = some docs) : hasText docs = true := by
  cases r with
  | error e => simp [tryPages] at h
  | ok pages =>
    have h2 : (if (pagesToDocs fname pages).isEmpty = true then none
        else some (pagesToDocs fname pages)) = some docs := h
    by_cases hne : (pagesToDocs fname pages).isEmpty = true
    · rw [if_pos hne] at h2
      exact absurd h2 (by simp)
    · rw [if_neg hne] at h2
      injection h2 with h2
      subst h2
      have hnil : pagesToDocs fname pages ≠ [] := by
        intro hh
        rw [hh] at hne
        exact hne rfl
      rcases List.exists_mem_of_ne_nil _ hnil with ⟨d, hd⟩
      unfold hasText
      apply List.any_eq_true.mpr
      exact ⟨d, hd, by simpa using pagesToDocs_trim hd⟩

/-- C4: the extractor never propagates an exception to its caller: a
strategy whose library call raises is just a failed strategy (when it was
attempted, the next strategy is attempted too), and when all four
strategies fail, `_load_pdf_with_fallbacks` returns the empty document
list instead of raising. -/
theorem C4_extractor_never_raises (f : PdfFile) :
    ((∀ i, stratOutcome f i = none) → loadPdfWithFallbacks f = []) ∧
    (∀ i, 1 ≤ i → i ≤ 3 → i ∈ (loadPdfWithFallbacksTraced f).2 →
      stratRaises f i = true → (i + 1) ∈ (loadPdfWithFallbacksTraced f).2) := by
  constructor
  · intro h
    have h1 : tryLoader f.pypdfLoader = none := h 1
    have h2 : tryLoader f.plumberLoader = none := h 2
    have h3 : tryPages f.name f.pypdfPages = none := h 3
    have h4 : tryPages f.name f.ocrPages = none := h 4
    unfold loadPdfWithFallbacks
    rw [h1, h2, h3, h4]
  · intro i hi1 hi3 hmem hra
    interval_cases i
    · have ho1 : tryLoader f.pypdfLoader = none :=
        tryLoader_none_of_raised hra
      unfold loadPdfWithFallbacksTraced
      rw [ho1]
      cases h2 : tryLoader f.plumberLoader with
      | some docs =>
        show (2 : Nat) ∈ ([1, 2] : List Nat)
        decide
      | none =>
        cases h3 : tryPages f.name f.pypdfPages with
        | some docs =>
          show (2 : Nat) ∈ ([1, 2, 3] : List Nat)
          decide
        | none =>
          cases h4 : tryPages f.name f.ocrPages with
          | some docs =>
            show (2 : Nat) ∈ ([1, 2, 3, 4] : List Nat)
            decide
          | none =>
            show (2 : Nat) ∈ ([1, 2, 3, 4] : List Nat)
            decide
    · have ho2 : tryLoader f.plumberLoader = none :=
        tryLoader_none_of_raised hra
      unfold loadPdfWithFallbacksTraced at hmem ⊢
      cases h1 : tryLoader f.pypdfLoader with
      | some docs =>
        rw [h1] at hmem
        have hno : (2 : Nat) ∉ ([1] : List Nat) := by decide
        exact absurd hmem hno
      | none =>
        rw [ho2]
        cases h3 : tryPages f.name f.pypdfPages with
        | some docs =>
          show (3 : Nat) ∈ ([1, 2, 3] : List Nat)
          decide
        | none =>
          cases h4 : tryPages f.name f.ocrPages with
          | some docs =>
            show (3 : Nat) ∈ ([1, 2, 3, 4] : List Nat)
            decide
          | none =>
            show (3 : Nat) ∈ ([1, 2, 3, 4] : List Nat)
            decide
    · have ho3 : tryPages f.name f.pypdfPages = none :=
        tryPages_none_of_raised hra
      unfold loadPdfWithFallbacksTraced at hmem ⊢
      cases h1 : tryLoader f.pypdfLoader with
      | some docs =>
        rw [h1] at hmem
        have hno : (3 : Nat) ∉ ([1] : List Nat) := by decide
        exact absurd hmem hno
      | none =>
        cases h2 : tryLoader f.plumberLoader with
        | some docs =>
          rw [h1, h2] at hmem
          have hno : (3 : Nat) ∉ ([1, 2] : List Nat) := by decide
          exact absurd hmem hno
        | none =>
          rw [ho3]
          cases h4 : tryPages f.name f.ocrPages with
          | some docs =>
            show (4 : Nat) ∈ ([1, 2, 3, 4] : List Nat)
            decide
          | none =>
            show (4 : Nat) ∈ ([1, 2, 3, 4] : List Nat)
            decide

/-- A PDF on which every extraction library call raises. -/
def allFailPdf : PdfFile :=
  ⟨"broken.pdf", .error (), .error (), .error (), .error ()⟩

/-- Witness for C4: on a PDF where all four strategies raise, the
extractor returns `[]`, and strategy 1's raise leads to strategy 2 being
attempted. -/
theorem C4_extractor_never_raises_witness :
    loadPdfWithFallbacks allFailPdf = [] ∧
    2 ∈ (loadPdfWithFallbacksTraced allFailPdf).2 := by
  refine ⟨(C4_extractor_never_raises allFailPdf).1 ?_,
          (C4_extractor_never_raises allFailPdf).2 1
            (by decide) (by decide) (by decide) (by decide)⟩
  intro i
  match i with
  | 0 => rfl
  | 1 => rfl
  | 2 => rfl
  | 3 => rfl
  | 4 => rfl
  | (n + 5) => rfl

/-- C5: the extractor tries its strategies in the fixed order
1 (PyPDFLoader), 2 (PDFPlumberLoader), 3 (direct pypdf), 4 (OCR) and
short-circuits at the first success: when strategy `i` succeeds and all
earlier ones fail, the result is exactly strategy `i`'s documents, the
attempted strategies are exactly 1..i, no later strategy is attempted,
and the successful strategy's documents contain at least one page with
non-empty text after trimming. -/
theorem C5_priority_short_circuit (f : PdfFile) (i : Nat)
    (docs : List Document)
    (hi1 : 1 ≤ i) (hi4 : i ≤ 4)
    (hsucc : stratOutcome f i = some docs)
    (hprev : ∀ j, 1 ≤ j → j < i → stratOutcome f j = none) :
    loadPdfWithFallbacks f = docs ∧
    (loadPdfWithFallbacksTraced f).2 = (List.range i).map (fun n => n + 1) ∧
    (∀ j, i < j → j ∉ (loadPdfWithFallbacksTraced f).2) ∧
    hasText docs = true := by
  interval_cases i
  · have hs : tryLoader f.pypdfLoader = some docs := hsucc
    refine ⟨?_, ?_, ?_, tryLoader_some_hasText hs⟩
    · unfold loadPdfWithFallbacks
      rw [hs]
    · unfold loadPdfWithFallbacksTraced
      rw [hs]
      rfl
    · unfold loadPdfWithFallbacksTraced
      rw [hs]
      intro j hj
      simp
      omega
  · have hp1 : tryLoader f.pypdfLoader = none := hprev 1 (by omega) (by omega)
    have hs : tryLoader f.plumberLoader = some docs := hsucc
    refine ⟨?_, ?_, ?_, tryLoader_some_hasText hs⟩
    · unfold loadPdfWithFallbacks
      rw [hp1, hs]
    · unfold loadPdfWithFallbacksTraced
      rw [hp1, hs]
      rfl
    · unfold loadPdfWithFallbacksTraced
      rw [hp1, hs]
      intro j hj
      simp
      omega
  · have hp1 : tryLoader f.pypdfLoader = none := hprev 1 (by omega) (by omega)
    have hp2 : tryLoader f.plumberLoader = none := hprev 2 (by omega) (by omega)
    have hs : tryPages f.name f.pypdfPages = some docs := hsucc
    refine ⟨?_, ?_, ?_, tryPages_some_hasText hs⟩
    · unfold loadPdfWithFallbacks
      rw [hp1, hp2, hs]
    · unfold loadPdfWithFallbacksTraced
      rw [hp1, hp2, hs]
      rfl
    · unfold loadPdfWithFallbacksTraced
      rw [hp1, hp2, hs]
      intro j hj
      simp
      omega
  · have hp1 : tryLoader f.pypdfLoader = none := hprev 1 (by omega) (by omega)
    have hp2 : tryLoader f.plumberLoader = none := hprev 2 (by omega) (by omega)
    have hp3 : tryPages f.name f.pypdfPages = none := hprev 3 (by omega) (by omega)
    have hs : tryPages f.name f.ocrPages = some docs := hsucc
    refine ⟨?_, ?_, ?_, tryPages_some_hasText hs⟩
    · unfold loadPdfWithFallbacks
      rw [hp1, hp2, hp3, hs]
    · unfold loadPdfWithFallbacksTraced
      rw [hp1, hp2, hp3, hs]
      rfl
    · unfold loadPdfWithFallbacksTraced
      rw [hp1, hp2, hp3, hs]
      intro j hj
      simp
      omega

/-- A scanned PDF: strategy 1 raises, strategy 2 loads only whitespace
pages, strategy 3's only page raises, and OCR (strategy 4) finds text. -/
def ocrOnlyPdf : PdfFile :=
  ⟨"scan.pdf", .error (), .ok [⟨"  ", ⟨"scan.pdf", 0, none⟩⟩],
   .ok [.error ()], .ok [.ok "found text"]⟩

/-- Witness for C5: on `ocrOnlyPdf` all four strategies are attempted and
the OCR result is returned. -/
theorem C5_priority_short_circuit_witness :
    loadPdfWithFallbacks ocrOnlyPdf
      = [⟨"found text", ⟨"scan.pdf", 0, none⟩⟩] ∧
    (loadPdfWithFallbacksTraced ocrOnlyPdf).2 = [1, 2, 3, 4] := by
  have h := C5_priority_short_circuit ocrOnlyPdf 4
    [⟨"found text", ⟨"scan.pdf", 0, none⟩⟩] (by decide) (by decide)
    rfl (fun j hj1 hj4 => by interval_cases j <;> rfl)
  exact ⟨h.1, h.2.1.trans (by decide)⟩

/-! ## Builder lemmas and claims -/

theorem splitDocuments_metadata {s : String → List String}
    {docs : List Document} {d : Document}
    (h : d ∈ splitDocuments s docs) : ∃ d₀ ∈ docs, d.metadata = d₀.metadata := by
  unfold splitDocuments at h
  rcases List.mem_flatMap.mp h with ⟨d₀, hd₀, hmem⟩
  rcases List.mem_map.mp hmem with ⟨t, _, rfl⟩
  exact ⟨d₀, hd₀, rfl⟩

/-- Every chunk built for a company carries the company's number: the
pages are tagged (line 266) before chunking, and chunking copies the
metadata. -/
theorem builtChunks_owned (env : QAEnv) (st : ProcState) (c : Tenant) :
    ∀ d ∈ builtChunks env st c, d.metadata.company_number = some c := by
  intro d hd
  unfold builtChunks at hd
  rcases splitDocuments_metadata hd with ⟨d₀, hd₀, hmeta⟩
  have hd₀' : d₀ ∈ companyDocuments c (lookupDownloads st.fs c) :=
    List.mem_of_mem_filter hd₀
  rcases List.mem_flatMap.mp hd₀' with ⟨f, _, hd₀''⟩
  rcases List.mem_map.mp hd₀'' with ⟨d₁, _, rfl⟩
  rw [hmeta]
  rfl

/-- A failed `_process_company_pdfs` leaves the processor state
untouched. -/
theorem processCompanyPdfs_fail_state (env : QAEnv) (st : ProcState)
    (c : Tenant) (h : (processCompanyPdfs env st c).2.1 = false) :
    (processCompanyPdfs env st c).1 = st := by
  unfold processCompanyPdfs at h ⊢
  split_ifs at h ⊢ <;> first | rfl | simp at h

/-- A successful `_process_company_pdfs` publishes the built store at the
company's disk path and `put`s it into the cache. -/
theorem processCompanyPdfs_success_shape (env : QAEnv) (st : ProcState)
    (c : Tenant) (h : (processCompanyPdfs env st c).2.1 = true) :
    (processCompanyPdfs env st c).1
      = ⟨setDiskSlot st.fs c (DiskSlot.complete ⟨builtChunks env st c⟩),
         st.cache.put c ⟨builtChunks env st c⟩, st.active⟩ := by
  unfold processCompanyPdfs at h ⊢
  split_ifs at h ⊢ <;> first | rfl | simp at h

/-- `_process_company_pdfs` preserves the tenant-ownership invariant. -/
theorem WF_processCompanyPdfs (env : QAEnv) (st : ProcState) (c : Tenant)
    (h : WFState st) : WFState (processCompanyPdfs env st c).1 := by
  by_cases hs : (processCompanyPdfs env st c).2.1 = true
  · rw [processCompanyPdfs_success_shape env st c hs]
    constructor
    · intro p hp
      rcases mem_put hp with h1 | h1
      · exact h.1 p h1
      · rw [h1]
        intro d hd
        exact builtChunks_owned env st c d hd
    · intro t vs hmem
      simp only [setDiskSlot] at hmem
      rcases List.mem_cons.mp hmem with h1 | h1
      · injection h1 with h1a h1b
        subst h1a
        injection h1b with h1c
        subst h1c
        intro d hd
        exact builtChunks_owned env st t d hd
      · exact h.2 t vs (mem_eraseKey h1).1
  · have hs' : (processCompanyPdfs env st c).2.1 = false := by
      cases hb : (processCompanyPdfs env st c).2.1
      · rfl
      · exact absurd hb hs
    rw [processCompanyPdfs_fail_state env st c hs']
    exact h

/-- C8 (amended): the builder detects the three failure conditions in
order and exits through distinct branches with distinct diagnostics —
no documents on disk (spec: NoInput) prints "No PDFs found...", documents
present but no page extracted by any strategy (spec: NoExtractableText)
prints "No documents were successfully loaded...", and zero chunks (spec:
NoChunks) prints "No text chunks were created..." — but its return value
is only the boolean `False` in each case; the reason is printed, not
returned. -/
theorem C8_failure_reasons (env : QAEnv) (st : ProcState) (c : Tenant)
    (hc : ¬ (c = "")) :
    (lookupDownloads st.fs c = [] →
      processCompanyPdfs env st c = (st, false, [LogMsg.noPdfsFound])) ∧
    (lookupDownloads st.fs c ≠ [] →
      companyDocuments c (lookupDownloads st.fs c) = [] →
      processCompanyPdfs env st c = (st, false, [LogMsg.noDocumentsLoaded])) ∧
    (companyDocuments c (lookupDownloads st.fs c) ≠ [] →
      nonEmptyDocs (companyDocuments c (lookupDownloads st.fs c)) ≠ [] →
      builtChunks env st c = [] →
      processCompanyPdfs env st c = (st, false, [LogMsg.noChunksCreated])) ∧
    ([LogMsg.noPdfsFound] ≠ [LogMsg.noDocumentsLoaded] ∧
     [LogMsg.noDocumentsLoaded] ≠ [LogMsg.noChunksCreated] ∧
     [LogMsg.noPdfsFound] ≠ [LogMsg.noChunksCreated]) := by
  refine ⟨?_, ?_, ?_, by decide, by decide, by decide⟩
  · intro h
    unfold processCompanyPdfs
    rw [if_neg hc, if_pos h]
  · intro h1 h2
    unfold processCompanyPdfs
    rw [if_neg hc, if_neg h1, if_pos h2]
  · intro h1 h2 h3
    have hp : ¬ (lookupDownloads st.fs c = []) := by
      intro hp0
      rw [hp0] at h1
      exact h1 rfl
    unfold processCompanyPdfs
    rw [if_neg hc, if_neg hp, if_neg h1, if_neg h2, if_pos h3]

/-- A plain environment: the splitter returns the text as one chunk
(dropping empty text), the embedding provider works, similarity keeps the
store order, generation succeeds. -/
def envPlain : QAEnv :=
  ⟨fun s => if s = "" then [] else [s], false, fun _ l => l,
   fun _ => Except.ok "generated answer"⟩

/-- State of a processor whose tenant "C" has no PDFs on disk. -/
def stNoInput : ProcState :=
  ⟨⟨[], []⟩, LRUCache.empty 5, none⟩

/-- State of a processor whose tenant "C" has one PDF that no strategy
can read. -/
def stNoText : ProcState :=
  ⟨⟨[("C", [allFailPdf])], []⟩, LRUCache.empty 5, none⟩

/-- Witness for C8: on a tenant with no PDFs the builder returns the
NoInput branch result. -/
theorem C8_failure_reasons_witness :
    processCompanyPdfs envPlain stNoInput "C"
      = (stNoInput, false, [LogMsg.noPdfsFound]) :=
  (C8_failure_reasons envPlain stNoInput "C" (by decide)).1 (by decide)

/-- C8 fails as stated: two ingests failing for different reasons — no
documents on disk versus documents present but unreadable by all four
strategies — return the very same value `False`.  The method returns only
a boolean; the reason is printed to stdout, not returned, so the result
does not say which reason applied. -/
theorem C8_counterexample :
    (processCompanyPdfs envPlain stNoInput "C").2.1
      = (processCompanyPdfs envPlain stNoText "C").2.1 ∧
    (processCompanyPdfs envPlain stNoInput "C").2.2
      ≠ (processCompanyPdfs envPlain stNoText "C").2.2 := by
  constructor <;> decide

/-- A store with one chunk, used in concrete publish scenarios. -/
def exVS : VectorStore := ⟨[⟨"alpha", ⟨"a.pdf", 0, some "C"⟩⟩]⟩

/-- C7 fails as stated: during the persist step (makedirs + in-place
`save_local`, lines 315-317) a reader of the tenant's path can observe a
state that is neither the complete previous version nor the complete new
version — here, the partially written state right after `os.makedirs`
created the directory (and between the two index-file writes). -/
theorem C7_counterexample :
    ¬ (∀ s ∈ publishTrace none exVS,
        s = none ∨ s = some (DiskSlot.complete exVS)) := by
  decide

/-- A PDF whose first strategy succeeds with one text page. -/
def goodPdf : PdfFile :=
  ⟨"doc.pdf", .ok [⟨"hello world", ⟨"doc.pdf", 0, none⟩⟩],
   .error (), .error (), .error ()⟩

/-- State of a processor whose tenant "C" has one readable PDF. -/
def stBuild : ProcState :=
  ⟨⟨[("C", [goodPdf])], []⟩, LRUCache.empty 5, none⟩

/-- C7 (amended): the persist step writes the new index in place at the
tenant's published path — there is no fresh-location write followed by an
atomic publish.  The path starts at its previous contents and, when the
save completes, holds the complete new store (a successful build leaves
the complete new store published); but the intermediate observations
include a partially written state, so a concurrent reader is not
guaranteed to see only complete versions. -/
theorem C7_publish_in_place (prev : Option DiskSlot) (vs : VectorStore)
    (env : QAEnv) (st : ProcState) (c : Tenant) :
    (publishTrace prev vs).head? = some prev ∧
    (publishTrace prev vs).getLast? = some (some (DiskSlot.complete vs)) ∧
    (∀ s ∈ publishTrace prev vs,
      s = prev ∨ s = some DiskSlot.partialWrite ∨
      s = some (DiskSlot.complete vs)) ∧
    ((processCompanyPdfs env st c).2.1 = true →
      diskSlot (processCompanyPdfs env st c).1.fs c
        = some (DiskSlot.complete ⟨builtChunks env st c⟩)) := by
  refine ⟨rfl, rfl, ?_, ?_⟩
  · intro s hs
    simp only [publishTrace, List.mem_cons, List.not_mem_nil, or_false]
      at hs
    rcases hs with rfl | rfl | rfl | rfl
    · exact Or.inl rfl
    · cases prev with
      | none => exact Or.inr (Or.inl rfl)
      | some sl => exact Or.inl rfl
    · exact Or.inr (Or.inl rfl)
    · exact Or.inr (Or.inr rfl)
  · intro hs
    rw [processCompanyPdfs_success_shape env st c hs]
    show diskSlot (setDiskSlot st.fs c
      (DiskSlot.complete ⟨builtChunks env st c⟩)) c = _
    unfold diskSlot setDiskSlot lookupEntry
    simp [List.find?]

/-- Witness for C7 (amended): a concrete successful build for tenant "C"
leaves a complete store at "C"'s path, and the last observable state of a
concrete publish is the complete new version. -/
theorem C7_publish_in_place_witness :
    diskSlot (processCompanyPdfs envPlain stBuild "C").1.fs "C"
      = some (DiskSlot.complete ⟨builtChunks envPlain stBuild "C"⟩) ∧
    (publishTrace none exVS).getLast?
      = some (some (DiskSlot.complete exVS)) :=
  ⟨(C7_publish_in_place none exVS envPlain stBuild "C").2.2.2 (by decide),
   (C7_publish_in_place none exVS envPlain stBuild "C").2.1⟩

/-! ## Answerer lemmas and claims -/

theorem finishAnswer_ok (env : QAEnv) (st : ProcState) (q c : String)
    (src : ResolSrc) (hllm : ∀ p, isRaised (env.llm p) = false) :
    ∃ s, (finishAnswer env st q c src).outcome = Except.ok s := by
  unfold finishAnswer
  cases hact : st.active with
  | none => exact ⟨msgNoData c, rfl⟩
  | some vs =>
    dsimp only
    have h := hllm (promptTemplate
      (contextOf ((env.rankChunks q vs.chunks).take 4)) q)
    split
    · next e heq =>
      rw [heq] at h
      exact absurd h (by simp [isRaised])
    · next a heq => exact ⟨a, rfl⟩

theorem finishAnswer_state (env : QAEnv) (st : ProcState) (q c : String)
    (src : ResolSrc) : (finishAnswer env st q c src).state = st := by
  unfold finishAnswer
  cases hact : st.active with
  | none => rfl
  | some vs =>
    dsimp only
    split <;> rfl

theorem finishAnswer_resolvedFrom (env : QAEnv) (st : ProcState)
    (q c : String) (src : ResolSrc) {vs : VectorStore}
    (hact : st.active = some vs) :
    (finishAnswer env st q c src).resolvedFrom = some src := by
  unfold finishAnswer
  rw [hact]
  dsimp only
  split <;> rfl

theorem finishAnswer_retrieved (env : QAEnv) (st : ProcState)
    (q c : String) (src : ResolSrc) {vs : VectorStore}
    (hact : st.active = some vs) :
    (finishAnswer env st q c src).retrieved
      = (env.rankChunks q vs.chunks).take 4 := by
  unfold finishAnswer
  rw [hact]
  dsimp only
  split <;> rfl

theorem finishAnswer_retrieved_none (env : QAEnv) (st : ProcState)
    (q c : String) (src : ResolSrc) (hact : st.active = none) :
    (finishAnswer env st q c src).retrieved = [] := by
  unfold finishAnswer
  rw [hact]

theorem answerQuestion_cacheHit (env : QAEnv) (st : ProcState)
    (q c : String) (hc : ¬ (c = "")) {vs : VectorStore}
    (hl : lookupEntry st.cache.entries c = some vs) :
    answerQuestion env st q c
      = finishAnswer env ⟨st.fs, (st.cache.get c).2, some vs⟩ q c
          ResolSrc.cacheHit := by
  unfold answerQuestion
  rw [if_neg hc, hl]

theorem answerQuestion_diskLoad (env : QAEnv) (st : ProcState)
    (q c : String) (hc : ¬ (c = "")) {vs : VectorStore}
    (hl : lookupEntry st.cache.entries c = none)
    (hd : diskSlot st.fs c = some (DiskSlot.complete vs)) :
    answerQuestion env st q c
      = finishAnswer env ⟨st.fs, st.cache.put c vs, some vs⟩ q c
          ResolSrc.diskLoad := by
  unfold answerQuestion
  rw [if_neg hc, hl, hd]

theorem answerQuestion_rebuildFail_partialDisk (env : QAEnv) (st : ProcState)
    (q c : String) (hc : ¬ (c = ""))
    (hl : lookupEntry st.cache.entries c = none)
    (hd : diskSlot st.fs c = some DiskSlot.partialWrite)
    (hfail : (processCompanyPdfs env st c).2.1 = false) :
    answerQuestion env st q c
      = ⟨⟨st.fs, st.cache, none⟩, .ok (msgFailedProcess c), [], none⟩ := by
  unfold answerQuestion
  rw [if_neg hc, hl, hd, processCompanyPdfs_fail_state env st c hfail, hl,
    get_eq_none hl]

theorem answerQuestion_rebuildFail_absent (env : QAEnv) (st : ProcState)
    (q c : String) (hc : ¬ (c = ""))
    (hl : lookupEntry st.cache.entries c = none)
    (hd : diskSlot st.fs c = none)
    (hfail : (processCompanyPdfs env st c).2.1 = false) :
    answerQuestion env st q c
      = ⟨st, .ok (msgNoPdfsOrFailed c), [], none⟩ := by
  unfold answerQuestion
  rw [if_neg hc, hl, hd, hfail, processCompanyPdfs_fail_state env st c hfail]
  rfl

theorem lookupEntry_put_self (c : LRUCache K V) (k : K) (v : V)
    (hcap : 1 ≤ c.capacity) :
    lookupEntry (c.put k v).entries k = some v := by
  unfold LRUCache.put
  split
  · next hcond =>
    have hne : eraseKey c.entries k ≠ [] := by
      intro hnil
      have h1 : ((c.putInserted k v)).entries.length = 1 := by
        show (eraseKey c.entries k ++ [(k, v)]).length = 1
        rw [hnil]
        rfl
      rw [h1] at hcond
      omega
    show lookupEntry ((eraseKey c.entries k ++ [(k, v)]).tail) k = some v
    rw [tail_append_singleton_of_ne_nil hne]
    apply lookupEntry_fresh_append
    intro p hp
    exact (mem_eraseKey (List.mem_of_mem_tail hp)).2
  · exact lookupEntry_putInserted_self c k v

theorem answerQuestion_partial_found (env : QAEnv) (st : ProcState)
    (q c : String) (hc : ¬ (c = ""))
    (hl : lookupEntry st.cache.entries c = none)
    (hd : diskSlot st.fs c = some DiskSlot.partialWrite) {vs : VectorStore}
    (hg : lookupEntry (processCompanyPdfs env st c).1.cache.entries c
      = some vs) :
    answerQuestion env st q c
      = finishAnswer env ⟨(processCompanyPdfs env st c).1.fs,
          ((processCompanyPdfs env st c).1.cache.get c).2, some vs⟩ q c
          ResolSrc.rebuilt := by
  unfold answerQuestion
  rw [if_neg hc, hl, hd, hg]

theorem answerQuestion_partial_missing (env : QAEnv) (st : ProcState)
    (q c : String) (hc : ¬ (c = ""))
    (hl : lookupEntry st.cache.entries c = none)
    (hd : diskSlot st.fs c = some DiskSlot.partialWrite)
    (hg : lookupEntry (processCompanyPdfs env st c).1.cache.entries c
      = none) :
    answerQuestion env st q c
      = ⟨⟨(processCompanyPdfs env st c).1.fs,
          ((processCompanyPdfs env st c).1.cache.get c).2, none⟩,
         .ok (msgFailedProcess c), [], none⟩ := by
  unfold answerQuestion
  rw [if_neg hc, hl, hd, hg]

theorem answerQuestion_absent_found (env : QAEnv) (st : ProcState)
    (q c : String) (hc : ¬ (c = ""))
    (hl : lookupEntry st.cache.entries c = none)
    (hd : diskSlot st.fs c = none)
    (hp : (processCompanyPdfs env st c).2.1 = true) {vs : VectorStore}
    (hg : lookupEntry (processCompanyPdfs env st c).1.cache.entries c
      = some vs) :
    answerQuestion env st q c
      = finishAnswer env ⟨(processCompanyPdfs env st c).1.fs,
          ((processCompanyPdfs env st c).1.cache.get c).2, some vs⟩ q c
          ResolSrc.rebuilt := by
  unfold answerQuestion
  rw [if_neg hc, hl, hd, hp, hg]
  rfl

theorem answerQuestion_absent_missing (env : QAEnv) (st : ProcState)
    (q c : String) (hc : ¬ (c = ""))
    (hl : lookupEntry st.cache.entries c = none)
    (hd : diskSlot st.fs c = none)
    (hp : (processCompanyPdfs env st c).2.1 = true)
    (hg : lookupEntry (processCompanyPdfs env st c).1.cache.entries c
      = none) :
    answerQuestion env st q c
      = finishAnswer env ⟨(processCompanyPdfs env st c).1.fs,
          ((processCompanyPdfs env st c).1.cache.get c).2, none⟩ q c
          ResolSrc.rebuilt := by
  unfold answerQuestion
  rw [if_neg hc, hl, hd, hp, hg]
  rfl

/-- C6 (amended): `answer_question` resolves the index in the order cache
hit, then disk load (inserting the loaded store into the cache), then
rebuild; every resolution failure is returned as one of the defined
user-facing message strings, not raised; and as long as the generation
provider does not raise, the outcome is always a returned string.
(As stated the claim is false: a generation-provider exception propagates
to the caller — see the counterexample.) -/
theorem C6_resolution_and_messages (env : QAEnv) (st : ProcState)
    (q c : String) (hc : ¬ (c = "")) :
    ((∀ p, isRaised (env.llm p) = false) →
        ∃ s, (answerQuestion env st q c).outcome = Except.ok s) ∧
    (∀ vs, lookupEntry st.cache.entries c = some vs →
        (answerQuestion env st q c).resolvedFrom = some ResolSrc.cacheHit ∧
        (answerQuestion env st q c).state.fs = st.fs) ∧
    (∀ vs, lookupEntry st.cache.entries c = none →
        diskSlot st.fs c = some (DiskSlot.complete vs) →
        (answerQuestion env st q c).resolvedFrom = some ResolSrc.diskLoad ∧
        (1 ≤ st.cache.capacity →
          lookupEntry (answerQuestion env st q c).state.cache.entries c
            = some vs)) ∧
    (lookupEntry st.cache.entries c = none →
        (diskSlot st.fs c = none ∨
         diskSlot st.fs c = some DiskSlot.partialWrite) →
        (processCompanyPdfs env st c).2.1 = false →
        ∃ m, (answerQuestion env st q c).outcome = Except.ok m ∧
          m ∈ failureMessages c) := by
  refine ⟨?_, ?_, ?_, ?_⟩
  · intro hllm
    cases hl : lookupEntry st.cache.entries c with
    | some vs =>
      rw [answerQuestion_cacheHit env st q c hc hl]
      exact finishAnswer_ok env _ q c _ hllm
    | none =>
      cases hd : diskSlot st.fs c with
      | some slot =>
        cases slot with
        | complete vs =>
          rw [answerQuestion_diskLoad env st q c hc hl hd]
          exact finishAnswer_ok env _ q c _ hllm
        | partialWrite =>
          cases hg : lookupEntry
              (processCompanyPdfs env st c).1.cache.entries c with
          | some vs =>
            rw [answerQuestion_partial_found env st q c hc hl hd hg]
            exact finishAnswer_ok env _ q c _ hllm
          | none =>
            rw [answerQuestion_partial_missing env st q c hc hl hd hg]
            exact ⟨msgFailedProcess c, rfl⟩
      | none =>
        by_cases hp : (processCompanyPdfs env st c).2.1 = true
        · cases hg : lookupEntry
              (processCompanyPdfs env st c).1.cache.entries c with
          | some vs =>
            rw [answerQuestion_absent_found env st q c hc hl hd hp hg]
            exact finishAnswer_ok env _ q c _ hllm
          | none =>
            rw [answerQuestion_absent_missing env st q c hc hl hd hp hg]
            exact finishAnswer_ok env _ q c _ hllm
        · have hp' : (processCompanyPdfs env st c).2.1 = false := by
            cases hb : (processCompanyPdfs env st c).2.1
            · rfl
            · exact absurd hb hp
          rw [answerQuestion_rebuildFail_absent env st q c hc hl hd hp']
          exact ⟨msgNoPdfsOrFailed c, rfl⟩
  · intro vs hl
    rw [answerQuestion_cacheHit env st q c hc hl]
    constructor
    · exact finishAnswer_resolvedFrom env _ q c _ rfl
    · rw [finishAnswer_state]
  · intro vs hl hd
    rw [answerQuestion_diskLoad env st q c hc hl hd]
    constructor
    · exact finishAnswer_resolvedFrom env _ q c _ rfl
    · intro hcap
      rw [finishAnswer_state]
      exact lookupEntry_put_self st.cache c vs hcap
  · intro hl hd hfail
    rcases hd with hd | hd
    · rw [answerQuestion_rebuildFail_absent env st q c hc hl hd hfail]
      exact ⟨msgNoPdfsOrFailed c, rfl, by simp [failureMessages]⟩
    · rw [answerQuestion_rebuildFail_partialDisk env st q c hc hl hd hfail]
      exact ⟨msgFailedProcess c, rfl, by simp [failureMessages]⟩

/-- State of a processor whose cache holds a store for tenant "C". -/
def stCachedC : ProcState :=
  ⟨⟨[], []⟩, ⟨5, [("C", exVS)]⟩, none⟩

/-- Witness for C6 (amended): with a working generation provider, a cache
hit for "C" yields an `ok` outcome resolved from the cache, and a tenant
with no data yields one of the defined failure messages, not an
exception. -/
theorem C6_resolution_and_messages_witness :
    (∃ s, (answerQuestion envPlain stCachedC "q" "C").outcome
        = Except.ok s) ∧
    (answerQuestion envPlain stCachedC "q" "C").resolvedFrom
      = some ResolSrc.cacheHit ∧
    (∃ m, (answerQuestion envPlain stNoInput "q" "C").outcome
        = Except.ok m ∧ m ∈ failureMessages "C") :=
  ⟨(C6_resolution_and_messages envPlain stCachedC "q" "C" (by decide)).1
     (fun _ => rfl),
   ((C6_resolution_and_messages envPlain stCachedC "q" "C" (by decide)).2.1
     exVS (by decide)).1,
   (C6_resolution_and_messages envPlain stNoInput "q" "C" (by decide)).2.2.2
     (by decide) (Or.inl (by decide)) (by decide)⟩

/-- An environment whose generation provider raises. -/
def envLlmFails : QAEnv :=
  ⟨fun s => if s = "" then [] else [s], false, fun _ l => l,
   fun _ => Except.error ()⟩

/-- C6 fails as stated: `answer_question` has no try/except around
`qa_chain.invoke(question)` (line 462), so when the generation provider
raises, the exception propagates to the caller instead of being returned
as answer text — here on a concrete state whose index resolution (a cache
hit) succeeded. -/
theorem C6_counterexample :
    (answerQuestion envLlmFails stCachedC "q" "C").outcome
      = Except.error () := by
  decide

theorem answerQuestion_noCompany (env : QAEnv) (st : ProcState)
    (q : String) :
    answerQuestion env st q "" = ⟨st, .ok msgNeedCompany, [], none⟩ := by
  unfold answerQuestion
  rw [if_pos rfl]

theorem finishAnswer_retrieved_owned (env : QAEnv) (st' : ProcState)
    (q T : String) (src : ResolSrc) {vs : VectorStore}
    (hact : st'.active = some vs)
    (hown : storeOwnedBy T vs)
    (hrank : ∀ qq l d, d ∈ env.rankChunks qq l → d ∈ l) :
    ∀ d ∈ (finishAnswer env st' q T src).retrieved,
      d.metadata.company_number = some T := by
  intro d hd
  rw [finishAnswer_retrieved env st' q T src hact] at hd
  exact hown d (hrank q vs.chunks d (List.mem_of_mem_take hd))

/-- C1: cross-tenant isolation of `answer_question`.  In every well-formed
state (every cached store and every complete on-disk store holds only
chunks tagged with its own tenant), asking a question for tenant T only
ever places chunks whose `company_number` metadata equals T into the
prompt — whichever resolution path (cache hit, disk load, rebuild) was
taken — and the final state is well-formed again, so the invariant is
maintained across calls.  The retriever hypothesis states that FAISS
similarity search returns documents of the searched store. -/
theorem C1_tenant_isolation (env : QAEnv) (st : ProcState) (q T : String)
    (hwf : WFState st)
    (hrank : ∀ qq l d, d ∈ env.rankChunks qq l → d ∈ l) :
    (∀ d ∈ (answerQuestion env st q T).retrieved,
        d.metadata.company_number = some T) ∧
    WFState (answerQuestion env st q T).state := by
  by_cases hc : T = ""
  · subst hc
    rw [answerQuestion_noCompany]
    exact ⟨fun d hd => absurd hd (List.not_mem_nil d), hwf⟩
  · cases hl : lookupEntry st.cache.entries T with
    | some vs =>
      have hown : storeOwnedBy T vs := hwf.1 (T, vs) (lookupEntry_mem hl)
      rw [answerQuestion_cacheHit env st q T hc hl]
      refine ⟨finishAnswer_retrieved_owned env _ q T _ rfl hown hrank, ?_⟩
      rw [finishAnswer_state]
      exact ⟨fun p hp => hwf.1 p (mem_get_snd hp), hwf.2⟩
    | none =>
      cases hd : diskSlot st.fs T with
      | some slot =>
        cases slot with
        | complete vs =>
          have hown : storeOwnedBy T vs := hwf.2 T vs (lookupEntry_mem hd)
          rw [answerQuestion_diskLoad env st q T hc hl hd]
          refine ⟨finishAnswer_retrieved_owned env _ q T _ rfl hown hrank, ?_⟩
          rw [finishAnswer_state]
          refine ⟨fun p hp => ?_, hwf.2⟩
          rcases mem_put hp with h1 | h1
          · exact hwf.1 p h1
          · rw [h1]
            exact hown
        | partialWrite =>
          have hwf2 := WF_processCompanyPdfs env st T hwf
          cases hg : lookupEntry
              (processCompanyPdfs env st T).1.cache.entries T with
          | some vs =>
            have hown : storeOwnedBy T vs :=
              hwf2.1 (T, vs) (lookupEntry_mem hg)
            rw [answerQuestion_partial_found env st q T hc hl hd hg]
            refine ⟨finishAnswer_retrieved_owned env _ q T _ rfl hown hrank,
              ?_⟩
            rw [finishAnswer_state]
            exact ⟨fun p hp => hwf2.1 p (mem_get_snd hp), hwf2.2⟩
          | none =>
            rw [answerQuestion_partial_missing env st q T hc hl hd hg]
            exact ⟨fun d hd' => absurd hd' (List.not_mem_nil d),
                   ⟨fun p hp => hwf2.1 p (mem_get_snd hp), hwf2.2⟩⟩
      | none =>
        have hwf2 := WF_processCompanyPdfs env st T hwf
        by_cases hp : (processCompanyPdfs env st T).2.1 = true
        · cases hg : lookupEntry
              (processCompanyPdfs env st T).1.cache.entries T with
          | some vs =>
            have hown : storeOwnedBy T vs :=
              hwf2.1 (T, vs) (lookupEntry_mem hg)
            rw [answerQuestion_absent_found env st q T hc hl hd hp hg]
            refine ⟨finishAnswer_retrieved_owned env _ q T _ rfl hown hrank,
              ?_⟩
            rw [finishAnswer_state]
            exact ⟨fun p hp' => hwf2.1 p (mem_get_snd hp'), hwf2.2⟩
          | none =>
            rw [answerQuestion_absent_missing env st q T hc hl hd hp hg]
            constructor
            · intro d hd'
              rw [finishAnswer_retrieved_none env _ q T _ rfl] at hd'
              exact absurd hd' (List.not_mem_nil d)
            · rw [finishAnswer_state]
              exact ⟨fun p hp' => hwf2.1 p (mem_get_snd hp'), hwf2.2⟩
        · have hp' : (processCompanyPdfs env st T).2.1 = false := by
            cases hb : (processCompanyPdfs env st T).2.1
            · rfl
            · exact absurd hb hp
          rw [answerQuestion_rebuildFail_absent env st q T hc hl hd hp']
          exact ⟨fun d hd' => absurd hd' (List.not_mem_nil d), hwf⟩

/-- Witness for C1: a concrete well-formed state (the cache holds a store
for "C" whose only chunk is tagged "C"): all retrieved chunks carry
`company_number = "C"` and the resulting state is still well-formed. -/
theorem C1_tenant_isolation_witness :
    (∀ d ∈ (answerQuestion envPlain stCachedC "q" "C").retrieved,
        d.metadata.company_number = some "C") ∧
    WFState (answerQuestion envPlain stCachedC "q" "C").state :=
  C1_tenant_isolation envPlain stCachedC "q" "C"
    ⟨by
      intro p hp
      have hp' : p = ("C", exVS) := by simpa [stCachedC] using hp
      subst hp'
      intro d hd
      have hd' : d = ⟨"alpha", ⟨"a.pdf", 0, some "C"⟩⟩ := by
        simpa [exVS] using hd
      subst hd'
      rfl,
     fun t vs h => absurd h (List.not_mem_nil _)⟩
    (fun _ _ _ h => h)
